import Mathlib

/-!
Shallow embedding of `pzflow/normalizing_flow.py` (the `Flow` class) and
proofs about its specification.

Modelling conventions:
* JAX/numpy float32 scalars are modelled by the inductive type `F`: an exact
  rational for a finite value, plus `pinf`, `ninf` and `nan`.  Arithmetic on
  `F` follows the IEEE-754 special-value rules (finite overflow and signed
  zero are not modelled; finite arithmetic is exact rational arithmetic).
* Batches (2-d arrays) are lists of rows, each row a list of `F`.
* The bijector, the `Normal` prior and the optimizer are external
  collaborators of the core (they live outside `src/`); following the spec's
  contracts they are modelled as abstract function-valued fields/parameters.
* File I/O (`save`/restore through dill) is modelled by passing the logical
  save bundle (`SaveDict`) directly.
-/

namespace PZFlow

/-- Scalar value of the numerics engine: a finite value (exact rational),
positive infinity, negative infinity, or NaN. -/
inductive F where
  | fin (q : ℚ)
  | pinf
  | ninf
  | nan
deriving DecidableEq

/-- IEEE-754 addition on `F` (special values); finite case is exact. -/
def F.add : F → F → F
  | .nan, _ => .nan
  | _, .nan => .nan
  | .pinf, .ninf => .nan
  | .ninf, .pinf => .nan
  | .pinf, _ => .pinf
  | _, .pinf => .pinf
  | .ninf, _ => .ninf
  | _, .ninf => .ninf
  | .fin a, .fin b => .fin (a + b)

/-- IEEE-754 negation on `F`. -/
def F.neg : F → F
  | .fin a => .fin (-a)
  | .pinf => .ninf
  | .ninf => .pinf
  | .nan => .nan

/-- IEEE-754 multiplication on `F`; `0 * inf = nan`. -/
def F.mul : F → F → F
  | .nan, _ => .nan
  | _, .nan => .nan
  | .fin a, .fin b => .fin (a * b)
  | .pinf, .fin b => if 0 < b then .pinf else if b < 0 then .ninf else .nan
  | .fin a, .pinf => if 0 < a then .pinf else if a < 0 then .ninf else .nan
  | .ninf, .fin b => if 0 < b then .ninf else if b < 0 then .pinf else .nan
  | .fin a, .ninf => if 0 < a then .ninf else if a < 0 then .pinf else .nan
  | .pinf, .pinf => .pinf
  | .ninf, .ninf => .pinf
  | .pinf, .ninf => .ninf
  | .ninf, .pinf => .ninf

/-- IEEE-754 division on `F`; division by (positive) zero gives a signed
infinity, `0/0 = nan`, `inf/inf = nan`.  (Only the positive zero of the
rational model exists, matching the values that actually arise here.) -/
def F.div : F → F → F
  | .nan, _ => .nan
  | _, .nan => .nan
  | .fin a, .fin b =>
      if b = 0 then (if 0 < a then .pinf else if a < 0 then .ninf else .nan)
      else .fin (a / b)
  | .pinf, .fin b => if b < 0 then .ninf else .pinf
  | .ninf, .fin b => if b < 0 then .pinf else .ninf
  | .fin _, .pinf => .fin 0
  | .fin _, .ninf => .fin 0
  | .pinf, .pinf => .nan
  | .pinf, .ninf => .nan
  | .ninf, .pinf => .nan
  | .ninf, .ninf => .nan

/-- Finiteness test. -/
def F.isFinite : F → Bool
  | .fin _ => true
  | _ => false

/-- NaN test. -/
def F.isNan : F → Bool
  | .nan => true
  | _ => false

/-- Largest finite float32 value, `(2 - 2^-23) * 2^127`; this is what
`nan_to_num` substitutes for `+inf` when `posinf` is left at its default. -/
def maxFloat : ℚ := (2 ^ 24 - 1) * 2 ^ 104

/-- Model of `numpy/jax.numpy.nan_to_num(x, nan=nanRepl)`: NaN is replaced by
`nanRepl`; with `posinf`/`neginf` left at their defaults, `+inf` is replaced
by the largest finite value and `-inf` by the lowest finite value of the
dtype; finite entries pass through unchanged. -/
def nanToNum (nanRepl : F) : F → F
  | .nan => nanRepl
  | .pinf => .fin maxFloat
  | .ninf => .fin (-maxFloat)
  | .fin q => .fin q

/-- Rational stand-in for the real exponential function on finite arguments
(the real `exp` is not rational-valued).  Only the properties shared with
`exp` are ever used: it is strictly positive everywhere and takes the value
`1` at `0`. -/
def expQ (q : ℚ) : ℚ := if 0 ≤ q then q + 1 else 1 / (1 - q)

/-- Model of `jax.numpy.exp` on `F`: `exp(-inf) = 0`, `exp(+inf) = +inf`,
`exp(nan) = nan`, finite arguments give a (strictly positive) finite value. -/
def F.exp : F → F
  | .nan => .nan
  | .pinf => .pinf
  | .ninf => .fin 0
  | .fin q => .fin (expQ q)

/-- Model of `jax.numpy.sum` over a vector of scalars (left fold). -/
def fsum (l : List F) : F := l.foldl F.add (F.fin 0)

/-- Model of `jax.numpy.mean`: sum divided by length (`nan` on empty input,
as `0/0`). -/
def fmean (l : List F) : F := (fsum l).div (F.fin (l.length : ℚ))

/-- Model of `numpy.trapz(y, x)` along one row: sum of
`(x[i+1]-x[i]) * (y[i]+y[i+1]) / 2`. -/
def trapzF : List ℚ → List F → F
  | x0 :: x1 :: xs, y0 :: y1 :: ys =>
      (((F.fin (x1 - x0)).mul (y0.add y1)).div (F.fin 2)).add
        (trapzF (x1 :: xs) (y1 :: ys))
  | _, _ => F.fin 0

/-- Rational trapezoid rule (used to describe `trapzF` on all-finite rows). -/
def trapzQ : List ℚ → List ℚ → ℚ
  | x0 :: x1 :: xs, y0 :: y1 :: ys =>
      (x1 - x0) * (y0 + y1) / 2 + trapzQ (x1 :: xs) (y1 :: ys)
  | _, _ => 0

/-- Python slice `xs[:c]` for an integer `c` (negative indices count from the
end, out-of-range bounds clamp). -/
def pyTake (c : ℤ) (xs : List F) : List F :=
  if 0 ≤ c then xs.take c.toNat else xs.take ((xs.length : ℤ) + c).toNat

/-- Python slice `xs[c:]` for an integer `c`. -/
def pyDrop (c : ℤ) (xs : List F) : List F :=
  if 0 ≤ c then xs.drop c.toNat else xs.drop ((xs.length : ℤ) + c).toNat

/-- Model of `jax.ops.index_update(row, c, v)` at a single integer index:
negative indices count from the end; an out-of-bounds scatter index drops
the update (XLA scatter semantics). -/
def pySet (c : ℤ) (v : F) (xs : List F) : List F :=
  if 0 ≤ c then xs.set c.toNat v
  else if 0 ≤ (xs.length : ℤ) + c then xs.set ((xs.length : ℤ) + c).toNat v
  else xs

/-- Model of `numpy.hstack` on three blocks with equal row counts:
rows are concatenated columnwise. -/
def hstack3 : List (List F) → List (List F) → List (List F) → List (List F)
  | a :: as, b :: bs, c :: cs => (a ++ b ++ c) :: hstack3 as bs cs
  | _, _, _ => []

/-- The `mode="insert"` batch expansion of `Flow.posterior`:
`np.hstack((np.repeat(inputs[:, :column], len(grid), axis=0),
np.tile(grid, nrows)[:, None],
np.repeat(inputs[:, column:], len(grid), axis=0)))`. -/
def insertExpand (inputs : List (List F)) (grid : List ℚ) (column : ℤ) :
    List (List F) :=
  hstack3
    ((inputs.map (pyTake column)).flatMap (fun r => List.replicate grid.length r))
    (((List.replicate inputs.length grid).flatten).map (fun g => [F.fin g]))
    ((inputs.map (pyDrop column)).flatMap (fun r => List.replicate grid.length r))

/-- The `mode="replace"` batch expansion of `Flow.posterior`:
`ops.index_update(np.repeat(inputs, len(grid), axis=0), ops.index[:, column],
np.tile(grid, nrows))`. -/
def replaceExpand (inputs : List (List F)) (grid : List ℚ) (column : ℤ) :
    List (List F) :=
  List.zipWith (fun r g => pySet column (F.fin g) r)
    (inputs.flatMap (fun r => List.replicate grid.length r))
    ((List.replicate inputs.length grid).flatten)

/-- Model of `v.reshape((m, n))` for a flat vector `v` of length `m * n`:
consecutive chunks of length `n` (row-major order). -/
def reshapeRows : ℕ → ℕ → List F → List (List F)
  | 0, _, _ => []
  | m + 1, n, l => l.take n :: reshapeRows m n (l.drop n)

/-- A Python value passed where an `int` is expected: either an actual
integer, or some other object (so that `isinstance(·, int)` checks are
expressible). -/
inductive PyVal where
  | int (z : ℤ)
  | nonInt
deriving DecidableEq

/-- A bijector apply function (forward or inverse): takes parameters and a
batch, returns the transformed batch and the per-row log-determinant. -/
def ApplyFun (P : Type) := P → List (List F) → List (List F) × List F

/-- Bijector factory contract: `(seed, input_dim) -> (params, forward_fun,
inverse_fun)`; the PRNG key is modelled as a natural number. -/
def BijT (P : Type) := ℕ → ℕ → P × ApplyFun P × ApplyFun P

/-- Modelled from the spec: the prior contract (`pzflow.utils.Normal` is not
under `src/`): `sample(n, seed) -> batch` and `log_prob(batch) -> vector`. -/
structure Prior where
  sample : ℕ → Option ℤ → List (List F)
  logProb : List (List F) → List F

/-- The `Flow` object state: `input_dim`, `info`, `_bijector`, `_params`,
the derived `_forward`/`_inverse` closures, and the owned `prior`. -/
structure Flow (P I : Type) where
  input_dim : ℕ
  info : I
  bijector : BijT P
  params : P
  forwardFun : ApplyFun P
  inverseFun : ApplyFun P
  prior : Prior

/-- The logical save bundle written by `Flow.save` and read on restore. -/
structure SaveDict (P I : Type) where
  input_dim : ℕ
  info : I
  bijector : BijT P
  params : P

/-- Model of `Flow.__init__`.  `rsc` models the `RollingSplineCoupling`
default-bijector family and `normal` the `Normal` prior family (both are
imported collaborators outside `src/`); `file` carries the deserialized save
bundle directly (dill I/O abstracted away).  Errors are the constructor's
`ValueError`s (the spec's `ConfigurationError`s). -/
def flowInit {P I : Type} (rsc : ℕ → BijT P) (normal : ℕ → Prior)
    (input_dim : Option PyVal) (bijector : Option (BijT P))
    (file : Option (SaveDict P I)) (info : I) : Except String (Flow P I) :=
  if input_dim.isNone && file.isNone then
    .error "User must provide either input_dim or file"
  else if file.isSome && (input_dim.isSome || bijector.isSome) then
    .error "If file is provided, please do not provide input_dim or bijector"
  else
    match file with
    | some sd =>
        .ok { input_dim := sd.input_dim
              info := sd.info
              bijector := sd.bijector
              params := sd.params
              forwardFun := (sd.bijector 0 sd.input_dim).2.1
              inverseFun := (sd.bijector 0 sd.input_dim).2.2
              prior := normal sd.input_dim }
    | none =>
        match input_dim with
        | some (.int z) =>
            if 0 < z then
              let b := bijector.getD (rsc z.toNat)
              .ok { input_dim := z.toNat
                    info := info
                    bijector := b
                    params := (b 0 z.toNat).1
                    forwardFun := (b 0 z.toNat).2.1
                    inverseFun := (b 0 z.toNat).2.2
                    prior := normal z.toNat }
            else .error "input_dim must be a positive integer"
        | _ => .error "input_dim must be a positive integer"

/-- Model of `Flow.save`: the bundle written to the file. -/
def Flow.save {P I : Type} (f : Flow P I) : SaveDict P I :=
  { input_dim := f.input_dim
    info := f.info
    bijector := f.bijector
    params := f.params }

/-- Model of `Flow.forward`. -/
def Flow.forward {P I : Type} (f : Flow P I) (inputs : List (List F)) :
    List (List F) :=
  (f.forwardFun f.params inputs).1

/-- Model of `Flow.inverse`. -/
def Flow.inverse {P I : Type} (f : Flow P I) (inputs : List (List F)) :
    List (List F) :=
  (f.inverseFun f.params inputs).1

/-- Model of `Flow.sample`. -/
def Flow.sample {P I : Type} (f : Flow P I) (nsamples : ℕ)
    (seed : Option ℤ) : List (List F) :=
  f.forward (f.prior.sample nsamples seed)

/-- Model of `Flow.log_prob`:
`np.nan_to_num(prior.log_prob(u) + log_det, nan=np.NINF)` where
`(u, log_det) = self._inverse(self._params, inputs)`. -/
def Flow.log_prob {P I : Type} (f : Flow P I) (inputs : List (List F)) :
    List F :=
  let ul := f.inverseFun f.params inputs
  (List.zipWith F.add (f.prior.logProb ul.1) ul.2).map (nanToNum F.ninf)

/-- The `mode == "auto"` resolution step of `Flow.posterior`. -/
def resolveMode (d ncols : ℕ) (mode : String) : String :=
  if mode = "auto" then
    if ncols = d - 1 then "insert"
    else if ncols = d then "replace"
    else mode
  else mode

/-- The batch expansion of `Flow.posterior` once the mode is resolved. -/
def expandBatch (inputs : List (List F)) (grid : List ℚ) (column : ℤ)
    (mode : String) : List (List F) :=
  if mode = "insert" then insertExpand inputs grid column
  else if mode = "replace" then replaceExpand inputs grid column
  else inputs

/-- The unnormalized density grid of `Flow.posterior`:
`np.exp(self.log_prob(inputs).reshape((nrows, len(grid))))`. -/
def posteriorUnnorm {P I : Type} (f : Flow P I) (inputs : List (List F))
    (grid : List ℚ) (column : ℤ) (mode : String) : List (List F) :=
  (reshapeRows inputs.length grid.length
      (f.log_prob (expandBatch inputs grid column
        (resolveMode f.input_dim (inputs.headD []).length mode)))).map
    (List.map F.exp)

/-- The normalized density grid of `Flow.posterior` before the final
`nan_to_num`: each row divided by its own trapezoidal integral,
`pdfs / np.trapz(y=pdfs, x=grid).reshape(-1, 1)`. -/
def posteriorPdfs {P I : Type} (f : Flow P I) (inputs : List (List F))
    (grid : List ℚ) (column : ℤ) (mode : String) : List (List F) :=
  List.zipWith (fun row iv => row.map (fun p => p.div iv))
    (posteriorUnnorm f inputs grid column mode)
    ((posteriorUnnorm f inputs grid column mode).map (trapzF grid))

/-- Model of `Flow.posterior`: the validation chain, the `auto` resolution,
the batch expansion, density evaluation, per-row trapezoidal normalization
and the final `np.nan_to_num(pdfs, nan=0.0)`. -/
def Flow.posterior {P I : Type} (f : Flow P I) (inputs : List (List F))
    (grid : List ℚ) (column : PyVal) (mode : String) :
    Except String (List (List F)) :=
  if mode ∉ ["auto", "insert", "replace"] then
    .error "mode is invalid. Accepted values are auto, insert, and replace"
  else if mode = "insert" ∧ (inputs.headD []).length ≠ f.input_dim - 1 then
    .error "When using mode=insert, inputs.shape[1] must be equal to input_dim-1"
  else if mode = "replace" ∧ (inputs.headD []).length ≠ f.input_dim then
    .error "When using mode=insert, inputs.shape[1] must be equal to input_dim"
  else if (inputs.headD []).length ∉ [f.input_dim, f.input_dim - 1] then
    .error "inputs.shape[1] must be equal to input_dim or input_dim-1"
  else
    match column with
    | .nonInt => .error "column must be an integer"
    | .int c =>
        .ok ((posteriorPdfs f inputs grid c mode).map
          (List.map (nanToNum (F.fin 0))))

/-- Optimizer contract (`jax.experimental.optimizers.Optimizer` triple):
`init(params) -> state`, `update(step, grad, state) -> state`,
`get_params(state) -> params`. -/
structure Optimizer (P S G : Type) where
  init : P → S
  update : ℕ → G → S → S
  getParams : S → P

/-- Modelled from the spec: the `jax.random` primitives used by `Flow.train`
(external numerics engine): `PRNGKey`, `split` (returning two subkeys) and
`permutation` of the rows of a batch. -/
structure Rng (K : Type) where
  key : ℤ → K
  split : K → K × K
  permutation : K → List (List F) → List (List F)

/-- The training loss closure of `Flow.train`:
`-np.mean(prior.log_prob(u) + log_det)` with
`(u, log_det) = self._inverse(params, x)`. -/
def lossFn {P I : Type} (f : Flow P I) (params : P) (x : List (List F)) : F :=
  let ul := f.inverseFun params x
  (fmean (List.zipWith F.add (f.prior.logProb ul.1) ul.2)).neg

/-- The minibatch partition `X[i : i+batch_size]` for
`i in range(0, len(X), batch_size)` (with positive `batch_size`); the length
of the list is used as recursion fuel. -/
def chunksAux (bs : ℕ) : ℕ → List (List F) → List (List (List F))
  | 0, _ => []
  | _, [] => []
  | fuel + 1, X => X.take bs :: chunksAux bs fuel (X.drop bs)

/-- All minibatches of one epoch, in order. -/
def chunksOf (bs : ℕ) (X : List (List F)) : List (List (List F)) :=
  chunksAux bs X.length X

/-- One inner `step` of `Flow.train` applied to every batch of one epoch:
split the running PRNG key, permute the inputs, and fold the optimizer
update (with the global step counter) over the batches.  State is
`(opt_state, step counter, PRNG key)`. -/
def epochStep {P S G K : Type} (opt : Optimizer P S G)
    (gradLoss : P → List (List F) → G) (rng : Rng K)
    (inputs : List (List F)) (bs : ℕ) (st : S × ℕ × K) : S × ℕ × K :=
  let sp := rng.split st.2.2
  let X := rng.permutation sp.1 inputs
  let fb := (chunksOf bs X).foldl
    (fun acc b => (opt.update acc.2 (gradLoss (opt.getParams acc.1) b) acc.1,
                   acc.2 + 1))
    (st.1, st.2.1)
  (fb.1, fb.2, sp.2)

/-- The training state as it stands after `e` complete epochs:
`stateAfter … 0` is the state right before the epoch loop (optimizer state
initialized from the Flow's current params, step counter `0`, PRNG key from
`seed`). -/
def stateAfter {P I S G K : Type} (f : Flow P I) (opt : Optimizer P S G)
    (gradLoss : P → List (List F) → G) (rng : Rng K)
    (inputs : List (List F)) (bs : ℕ) (seed : ℤ) : ℕ → S × ℕ × K
  | 0 => (opt.init f.params, 0, rng.key seed)
  | e + 1 => epochStep opt gradLoss rng inputs bs
      (stateAfter f opt gradLoss rng inputs bs seed e)

/-- The epoch loop of `Flow.train`: runs `e` more epochs from state `st`,
appending the full-input loss after each epoch to `ls`. -/
def trainEpochs {P I S G K : Type} (f : Flow P I) (opt : Optimizer P S G)
    (gradLoss : P → List (List F) → G) (rng : Rng K)
    (inputs : List (List F)) (bs : ℕ) :
    ℕ → S × ℕ × K → List F → (S × ℕ × K) × List F
  | 0, st, ls => (st, ls)
  | e + 1, st, ls =>
      let st' := epochStep opt gradLoss rng inputs bs st
      trainEpochs f opt gradLoss rng inputs bs e st'
        (ls ++ [lossFn f (opt.getParams st'.1) inputs])

/-- Model of `Flow.train`: returns the updated Flow (its `_params` replaced
by the final optimizer-extracted parameters) and the loss list.  `gradLoss`
stands for `jax.grad(loss)` (automatic differentiation is external). -/
def Flow.train {P I S G K : Type} (f : Flow P I) (opt : Optimizer P S G)
    (gradLoss : P → List (List F) → G) (rng : Rng K)
    (inputs : List (List F)) (bs : ℕ) (epochs : ℕ) (seed : ℤ) :
    Flow P I × List F :=
  ({ f with params := opt.getParams (trainEpochs f opt gradLoss rng inputs bs epochs (opt.init f.params, 0, rng.key seed) [lossFn f f.params inputs]).1.1 },
   (trainEpochs f opt gradLoss rng inputs bs epochs
     (opt.init f.params, 0, rng.key seed) [lossFn f f.params inputs]).2)

/-- Bijector-contract conformance for a Flow: the inverse map and the prior
return one row / one log-determinant entry per input row. -/
def Conforming {P I : Type} (f : Flow P I) : Prop :=
  (∀ p x, ((f.inverseFun p x).1).length = x.length ∧
      ((f.inverseFun p x).2).length = x.length) ∧
  (∀ x : List (List F), (f.prior.logProb x).length = x.length)

/-!
State-passing versions of the `Flow` methods, for the frame claim: each
method is rendered as a function returning its result together with the
object state after the call.  Methods whose Python body never assigns to
`self` return the state unchanged; `train` assigns `self._params` as its
last statement.
-/

/-- State-passing `Flow.forward`. -/
def Flow.forwardS {P I : Type} (f : Flow P I) (inputs : List (List F)) :
    List (List F) × Flow P I :=
  (f.forward inputs, f)

/-- State-passing `Flow.inverse`. -/
def Flow.inverseS {P I : Type} (f : Flow P I) (inputs : List (List F)) :
    List (List F) × Flow P I :=
  (f.inverse inputs, f)

/-- State-passing `Flow.sample`. -/
def Flow.sampleS {P I : Type} (f : Flow P I) (nsamples : ℕ)
    (seed : Option ℤ) : List (List F) × Flow P I :=
  (f.sample nsamples seed, f)

/-- State-passing `Flow.log_prob`. -/
def Flow.log_probS {P I : Type} (f : Flow P I) (inputs : List (List F)) :
    List F × Flow P I :=
  (f.log_prob inputs, f)

/-- State-passing `Flow.posterior`. -/
def Flow.posteriorS {P I : Type} (f : Flow P I) (inputs : List (List F))
    (grid : List ℚ) (column : PyVal) (mode : String) :
    Except String (List (List F)) × Flow P I :=
  (f.posterior inputs grid column mode, f)

/-- State-passing `Flow.save`. -/
def Flow.saveS {P I : Type} (f : Flow P I) : SaveDict P I × Flow P I :=
  (f.save, f)

/-- State-passing `Flow.train`: losses plus the updated object. -/
def Flow.trainS {P I S G K : Type} (f : Flow P I) (opt : Optimizer P S G)
    (gradLoss : P → List (List F) → G) (rng : Rng K)
    (inputs : List (List F)) (bs : ℕ) (epochs : ℕ) (seed : ℤ) :
    List F × Flow P I :=
  let r := f.train opt gradLoss rng inputs bs epochs seed
  (r.2, r.1)

/-!
Concrete instances used by witnesses and counterexamples.
-/

/-- Identity bijector apply function with zero log-determinant. -/
def idApply : ApplyFun Unit := fun _ x => (x, x.map (fun _ => F.fin 0))

/-- Identity bijector factory. -/
def idBij : BijT Unit := fun _ _ => ((), idApply, idApply)

/-- A prior whose log-density is `0` on every row. -/
def zeroPrior : Prior :=
  { sample := fun _ _ => [], logProb := fun rows => rows.map (fun _ => F.fin 0) }

/-- A 2-dimensional Flow with the identity bijector and the zero prior. -/
def flowA : Flow Unit Unit :=
  { input_dim := 2
    info := ()
    bijector := idBij
    params := ()
    forwardFun := idApply
    inverseFun := idApply
    prior := zeroPrior }

/-- Bijector apply function whose log-determinant is `+inf` on every row. -/
def pinfApply : ApplyFun Unit := fun _ x => (x, x.map (fun _ => F.pinf))

/-- A Flow whose inverse map reports a `+inf` log-determinant. -/
def flowB : Flow Unit Unit := { flowA with inverseFun := pinfApply }

/-- A prior whose log-density is NaN on every row. -/
def nanPrior : Prior :=
  { sample := fun _ _ => [], logProb := fun rows => rows.map (fun _ => F.nan) }

/-- A Flow whose prior log-density is NaN everywhere (so `log_prob` is
`-inf` everywhere and every posterior pdf row integrates to zero). -/
def flowC : Flow Unit Unit := { flowA with prior := nanPrior }

/-- Error test on `Except`. -/
def isErr {ε α : Type} : Except ε α → Bool
  | .error _ => true
  | .ok _ => false

/-!
Helper lemmas shared by the claim proofs.
-/

theorem hstack3_blocks (x y : List F) (l : List ℚ)
    (as bs cs : List (List F)) :
    hstack3 (List.replicate l.length x ++ as)
      ((l.map fun g => [F.fin g]) ++ bs)
      (List.replicate l.length y ++ cs) =
      (l.map fun g => x ++ F.fin g :: y) ++ hstack3 as bs cs := by
  induction l with
  | nil => simp
  | cons g gs ih =>
      simp only [List.length_cons, List.replicate_succ, List.map_cons,
        List.cons_append, hstack3, List.append_eq, List.nil_append, ih,
        List.append_assoc, List.singleton_append]

/-- The `insert` expansion is grid-point-major within each original row:
row `r` contributes the block `grid.map (fun g => r[:c] ++ [g] ++ r[c:])`. -/
theorem insertExpand_eq (inputs : List (List F)) (grid : List ℚ) (c : ℤ) :
    insertExpand inputs grid c =
      inputs.flatMap (fun r => grid.map (fun g =>
        pyTake c r ++ F.fin g :: pyDrop c r)) := by
  induction inputs with
  | nil => simp [insertExpand, hstack3]
  | cons r rs ih =>
      unfold insertExpand at ih ⊢
      simp only [List.map_cons, List.flatMap_cons, List.length_cons,
        List.replicate_succ, List.flatten_cons, List.map_append]
      rw [hstack3_blocks, ih]

theorem zipWith_replicate_length {α β γ : Type} (f : α → β → γ) (x : α)
    (l : List β) :
    List.zipWith f (List.replicate l.length x) l = l.map (f x) := by
  induction l with
  | nil => rfl
  | cons b bs ih => simp only [List.length_cons, List.replicate_succ,
      List.zipWith_cons_cons, ih, List.map_cons]

/-- The `replace` expansion is grid-point-major within each original row:
row `r` contributes the block `grid.map (fun g => r with r[c] := g)`. -/
theorem replaceExpand_eq (inputs : List (List F)) (grid : List ℚ) (c : ℤ) :
    replaceExpand inputs grid c =
      inputs.flatMap (fun r => grid.map (fun g => pySet c (F.fin g) r)) := by
  induction inputs with
  | nil => simp [replaceExpand]
  | cons r rs ih =>
      unfold replaceExpand at ih ⊢
      simp only [List.flatMap_cons, List.length_cons, List.replicate_succ,
        List.flatten_cons]
      rw [List.zipWith_append _ _ _ _ _ (by simp),
        zipWith_replicate_length, ih]

/-- Every entry of a `log_prob` output vector is either `-inf` (substituted
for NaN) or finite: `nan_to_num` with `nan=-inf` maps every value into that
set. -/
theorem log_prob_entry_shape {P I : Type} (f : Flow P I)
    (x : List (List F)) :
    ∀ e ∈ f.log_prob x, e = F.ninf ∨ ∃ q, e = F.fin q := by
  intro e he
  unfold Flow.log_prob at he
  simp only [List.mem_map] at he
  obtain ⟨a, -, rfl⟩ := he
  cases a with
  | fin q => exact Or.inr ⟨q, rfl⟩
  | pinf => exact Or.inr ⟨maxFloat, rfl⟩
  | ninf => exact Or.inr ⟨-maxFloat, rfl⟩
  | nan => exact Or.inl rfl

/-- Under the bijector/prior contract, `log_prob` returns one entry per
input row. -/
theorem log_prob_length {P I : Type} (f : Flow P I) (hC : Conforming f)
    (x : List (List F)) : (f.log_prob x).length = x.length := by
  unfold Flow.log_prob
  simp [List.length_zipWith, (hC.1 f.params x).1, (hC.1 f.params x).2,
    hC.2 (f.inverseFun f.params x).1]

theorem reshapeRows_length (m n : ℕ) (l : List F) :
    (reshapeRows m n l).length = m := by
  induction m generalizing l with
  | zero => rfl
  | succ m ih => simp [reshapeRows, ih]

theorem reshapeRows_row_length (m n : ℕ) (l : List F) (h : l.length = m * n) :
    ∀ row ∈ reshapeRows m n l, row.length = n := by
  induction m generalizing l with
  | zero => simp [reshapeRows]
  | succ m ih =>
      intro row hrow
      rw [reshapeRows] at hrow
      rcases List.mem_cons.mp hrow with hr | hr
      · subst hr
        rw [List.length_take, h, Nat.succ_mul]
        omega
      · exact ih (l.drop n) (by rw [List.length_drop, h, Nat.succ_mul]; omega)
          row hr

theorem reshapeRows_sublists (m n : ℕ) (l : List F) :
    ∀ row ∈ reshapeRows m n l, ∀ e ∈ row, e ∈ l := by
  induction m generalizing l with
  | zero => simp [reshapeRows]
  | succ m ih =>
      intro row hrow e he
      rw [reshapeRows] at hrow
      rcases List.mem_cons.mp hrow with hr | hr
      · subst hr
        exact List.take_subset n l he
      · exact List.drop_subset n l (ih (l.drop n) row hr e he)

/-- A list whose entries are all finite is the image of a rational list. -/
theorem exists_map_fin (row : List F) (h : ∀ e ∈ row, ∃ q, e = F.fin q) :
    ∃ qs : List ℚ, row = qs.map F.fin := by
  induction row with
  | nil => exact ⟨[], rfl⟩
  | cons a as ih =>
      obtain ⟨q, rfl⟩ := h a (List.mem_cons_self a as)
      obtain ⟨qs, rfl⟩ := ih (fun e he => h e (List.mem_cons_of_mem _ he))
      exact ⟨q :: qs, rfl⟩

/-- The trapezoid rule on an all-finite row is the exact rational trapezoid
rule. -/
theorem trapzF_map_fin : ∀ (xs ys : List ℚ),
    trapzF xs (ys.map F.fin) = F.fin (trapzQ xs ys)
  | [], _ => rfl
  | [_], _ => rfl
  | _ :: _ :: _, [] => rfl
  | _ :: _ :: _, [_] => rfl
  | x0 :: x1 :: xs, y0 :: y1 :: ys => by
      rw [List.map_cons, List.map_cons, trapzF, trapzQ]
      rw [show trapzF (x1 :: xs) (F.fin y1 :: List.map F.fin ys) =
        F.fin (trapzQ (x1 :: xs) (y1 :: ys)) from trapzF_map_fin (x1 :: xs) (y1 :: ys)]
      simp only [F.add, F.mul, F.div]
      rw [if_neg (by norm_num : ¬(2 : ℚ) = 0)]

/-- Scaling every sample by `1/t` scales the rational trapezoid integral by
`1/t` (in ℚ, where division by zero is zero, this holds for every `t`). -/
theorem trapzQ_div : ∀ (xs ys : List ℚ) (t : ℚ),
    trapzQ xs (ys.map (fun y => y / t)) = trapzQ xs ys / t
  | [], _, _ => by simp [trapzQ]
  | [_], _, _ => by simp [trapzQ]
  | _ :: _ :: _, [], _ => by simp [trapzQ]
  | _ :: _ :: _, [_], _ => by simp [trapzQ]
  | x0 :: x1 :: xs, y0 :: y1 :: ys, t => by
      rw [List.map_cons, List.map_cons, trapzQ, trapzQ]
      rw [show trapzQ (x1 :: xs) (y1 / t :: List.map (fun y => y / t) ys) =
        trapzQ (x1 :: xs) (y1 :: ys) / t from trapzQ_div (x1 :: xs) (y1 :: ys) t]
      ring

theorem zipWith_map_self {α β γ : Type} (f : α → β → γ) (g : α → β)
    (l : List α) :
    List.zipWith f l (l.map g) = l.map (fun a => f a (g a)) := by
  induction l with
  | nil => rfl
  | cons a as ih => simp [ih]

/-- The normalization step of `posterior`, rewritten per-row: each pdf row
is divided by its own trapezoidal integral. -/
theorem posteriorPdfs_rows {P I : Type} (f : Flow P I)
    (inputs : List (List F)) (grid : List ℚ) (c : ℤ) (mode : String) :
    posteriorPdfs f inputs grid c mode =
      (posteriorUnnorm f inputs grid c mode).map
        (fun row => row.map (fun p => p.div (trapzF grid row))) := by
  unfold posteriorPdfs
  exact zipWith_map_self _ _ _

/-- Every row of the unnormalized posterior density grid is all-finite:
`log_prob` outputs are finite or `-inf`, and `exp` maps both to finite
values. -/
theorem posteriorUnnorm_row_fin {P I : Type} (f : Flow P I)
    (inputs : List (List F)) (grid : List ℚ) (c : ℤ) (mode : String) :
    ∀ row ∈ posteriorUnnorm f inputs grid c mode,
      ∃ qs : List ℚ, row = qs.map F.fin := by
  intro row hrow
  unfold posteriorUnnorm at hrow
  obtain ⟨lrow, hl, rfl⟩ := List.mem_map.mp hrow
  refine exists_map_fin _ ?_
  intro e he
  obtain ⟨a, ha, rfl⟩ := List.mem_map.mp he
  rcases log_prob_entry_shape f _ a
      (reshapeRows_sublists _ _ _ lrow hl a ha) with h | ⟨q, h⟩ <;> subst h
  · exact ⟨0, rfl⟩
  · exact ⟨expQ q, rfl⟩

theorem map_div_fin (qs : List ℚ) (t : ℚ) (ht : t ≠ 0) :
    (qs.map F.fin).map (fun p => p.div (F.fin t)) =
      (qs.map (fun q => q / t)).map F.fin := by
  induction qs with
  | nil => rfl
  | cons q rest ih => simp [F.div, ht, ih]

theorem map_nanToNum_fin (v : F) (qs : List ℚ) :
    (qs.map F.fin).map (nanToNum v) = qs.map F.fin := by
  induction qs with
  | nil => rfl
  | cons q rest ih => simp [nanToNum, ih]

theorem flatMap_gridmap_length {α : Type} (inputs : List α) (grid : List ℚ)
    (h : α → ℚ → List F) :
    (inputs.flatMap (fun r => grid.map (h r))).length =
      inputs.length * grid.length := by
  induction inputs with
  | nil => simp
  | cons r rs ih => simp [ih, Nat.succ_mul, Nat.add_comm]

/-!
Claim theorems.
-/

/-- C1 counterexample: the claim says every non-finite entry of
`prior.log_prob(latent) + log_det` is replaced with negative infinity.  For
`flowB` on the batch `[[0, 0]]` the sum vector is `[+inf]` (non-finite), yet
`log_prob` returns the largest finite float, not negative infinity:
`nan_to_num` with only `nan=np.NINF` specified maps `+inf` to `finfo.max`. -/
theorem claim_C1_counterexample :
    List.zipWith F.add
        (flowB.prior.logProb (flowB.inverseFun flowB.params [[F.fin 0, F.fin 0]]).1)
        (flowB.inverseFun flowB.params [[F.fin 0, F.fin 0]]).2 = [F.pinf] ∧
    F.pinf.isFinite = false ∧
    flowB.log_prob [[F.fin 0, F.fin 0]] = [F.fin maxFloat] ∧
    F.fin maxFloat ≠ F.ninf := by
  refine ⟨rfl, rfl, rfl, ?_⟩
  intro h
  exact F.noConfusion h

/-- C1 (amended): `Flow.log_prob` returns
`nan_to_num(prior.log_prob(latent) + log_det, nan=np.NINF)` where
`(latent, log_det)` is the inverse map's output at the current parameters;
the substitution maps NaN to negative infinity, `+inf` to the largest finite
float, `-inf` to the lowest finite float, and leaves finite entries
unchanged; no NaN is ever returned. -/
theorem claim_C1_log_prob_nan_handling {P I : Type} (f : Flow P I)
    (inputs : List (List F)) :
    f.log_prob inputs =
      (List.zipWith F.add
        (f.prior.logProb (f.inverseFun f.params inputs).1)
        (f.inverseFun f.params inputs).2).map (nanToNum F.ninf) ∧
    nanToNum F.ninf F.nan = F.ninf ∧
    nanToNum F.ninf F.pinf = F.fin maxFloat ∧
    nanToNum F.ninf F.ninf = F.fin (-maxFloat) ∧
    (∀ q : ℚ, nanToNum F.ninf (F.fin q) = F.fin q) ∧
    ∀ e ∈ f.log_prob inputs, e.isNan = false := by
  refine ⟨rfl, rfl, rfl, rfl, fun _ => rfl, ?_⟩
  intro e he
  unfold Flow.log_prob at he
  simp only [List.mem_map] at he
  obtain ⟨a, -, rfl⟩ := he
  cases a <;> rfl

/-- C1 witness: the amended theorem applied to `flowA` on a concrete batch,
with the membership premise of the no-NaN clause discharged concretely. -/
theorem claim_C1_witness :
    F.fin 0 ∈ flowA.log_prob [[F.fin 0, F.fin 0]] ∧ (F.fin 0).isNan = false := by
  have hm : flowA.log_prob [[F.fin 0, F.fin 0]] = [F.fin 0] := by
    simp [Flow.log_prob, flowA, zeroPrior, idApply, nanToNum, F.add]
  exact ⟨by rw [hm]; exact List.mem_singleton.mpr rfl,
    (claim_C1_log_prob_nan_handling flowA [[F.fin 0, F.fin 0]]).2.2.2.2.2
      (F.fin 0) (by rw [hm]; exact List.mem_singleton.mpr rfl)⟩

/-- C5: `Flow.__init__` fails exactly when neither `input_dim` nor `file` is
given; or `file` is given together with `input_dim` or `bijector`; or
`input_dim` is given (without `file`) and is not a positive integer.  The
model is pure, so no state is mutated on the error paths. -/
theorem claim_C5_flowInit_errors {P I : Type} (rsc : ℕ → BijT P)
    (normal : ℕ → Prior) (input_dim : Option PyVal)
    (bijector : Option (BijT P)) (file : Option (SaveDict P I)) (info : I) :
    isErr (flowInit rsc normal input_dim bijector file info) = true ↔
      ((input_dim = none ∧ file.isNone = true) ∨
       (file.isSome = true ∧ (input_dim.isSome = true ∨ bijector.isSome = true)) ∨
       (file.isNone = true ∧ ∃ v, input_dim = some v ∧
          ¬ ∃ z : ℤ, v = PyVal.int z ∧ 0 < z)) := by
  rcases file with _ | sd
  · rcases input_dim with _ | v
    · simp [flowInit, isErr]
    · rcases v with z | _
      · by_cases hz : 0 < z
        · simp [flowInit, isErr, hz]
        · constructor
          · intro _
            refine Or.inr (Or.inr ⟨rfl, PyVal.int z, rfl, ?_⟩)
            rintro ⟨z', hzz, hpos⟩
            cases hzz
            omega
          · intro _
            simp [flowInit, isErr, hz]
      · simp [flowInit, isErr]
  · rcases input_dim with _ | v
    · rcases bijector with _ | b
      · simp [flowInit, isErr]
      · simp [flowInit, isErr]
    · simp [flowInit, isErr]

/-- C5 witness: the theorem applied at a concrete erroneous call (neither
`input_dim` nor `file`) and the disjunction evaluated there. -/
theorem claim_C5_witness :
    isErr (flowInit (fun _ => idBij) (fun _ => zeroPrior)
        (none : Option PyVal) (none : Option (BijT Unit))
        (none : Option (SaveDict Unit Unit)) ()) = true :=
  (claim_C5_flowInit_errors (fun _ => idBij) (fun _ => zeroPrior)
      none none none ()).mpr (Or.inl ⟨rfl, rfl⟩)

/-- C2 (amended): for every valid posterior call with an integer column, the
expanded batch is grid-point-major within each original row — row `r`
contributes the block `grid.map (fun g => r[:column] ++ [g] ++ r[column:])`
in insert mode and `grid.map (fun g => r with r[column] := g)` in replace
mode (Python slice/index semantics; for `column ≥ 0` these are `List.take`,
`List.drop` and `List.set` at `column`), every other coordinate held at the
row's original value; the call returns the `nan_to_num(·, nan=0)` image of
the per-row-normalized density grid, of shape `(n_rows, n_grid)`; each
returned row is its unnormalized pdf row divided by that row's own
trapezoidal integral; and every returned row whose unnormalized pdf has
nonzero trapezoidal integral over `grid` has trapezoidal integral exactly 1.
(The per-row nonzero-integral condition is forced: a row of zero density
everywhere yields `0/0 = NaN`, which the final `nan_to_num` maps to `0`,
and that returned row integrates to `0`, not `1`.) -/
theorem claim_C2_posterior_normalization {P I : Type} (f : Flow P I)
    (inputs : List (List F)) (grid : List ℚ) (c : ℤ) (mode : String)
    (ncols : ℕ) (hd : 0 < f.input_dim) (hne : inputs ≠ [])
    (hrect : ∀ r ∈ inputs, r.length = ncols) (hC : Conforming f)
    (hmode : (mode = "insert" ∧ ncols = f.input_dim - 1) ∨
             (mode = "replace" ∧ ncols = f.input_dim) ∨
             (mode = "auto" ∧ (ncols = f.input_dim - 1 ∨ ncols = f.input_dim))) :
    f.posterior inputs grid (PyVal.int c) mode =
      .ok ((posteriorPdfs f inputs grid c mode).map
        (List.map (nanToNum (F.fin 0)))) ∧
    (resolveMode f.input_dim ncols mode = "insert" →
      expandBatch inputs grid c (resolveMode f.input_dim ncols mode) =
        inputs.flatMap (fun r => grid.map (fun g =>
          pyTake c r ++ F.fin g :: pyDrop c r))) ∧
    (resolveMode f.input_dim ncols mode = "replace" →
      expandBatch inputs grid c (resolveMode f.input_dim ncols mode) =
        inputs.flatMap (fun r => grid.map (fun g =>
          pySet c (F.fin g) r))) ∧
    (0 ≤ c → ∀ r : List F, pyTake c r = r.take c.toNat ∧
        pyDrop c r = r.drop c.toNat ∧
        ∀ v : F, pySet c v r = r.set c.toNat v) ∧
    (posteriorPdfs f inputs grid c mode).map (List.map (nanToNum (F.fin 0))) =
      (posteriorUnnorm f inputs grid c mode).map (fun urow =>
        (urow.map (fun p => p.div (trapzF grid urow))).map
          (nanToNum (F.fin 0))) ∧
    ((posteriorPdfs f inputs grid c mode).map
        (List.map (nanToNum (F.fin 0)))).length = inputs.length ∧
    (∀ row ∈ (posteriorPdfs f inputs grid c mode).map
        (List.map (nanToNum (F.fin 0))), row.length = grid.length) ∧
    (∀ urow ∈ posteriorUnnorm f inputs grid c mode,
      trapzF grid urow ≠ F.fin 0 →
        trapzF grid ((urow.map (fun p => p.div (trapzF grid urow))).map
          (nanToNum (F.fin 0))) = F.fin 1) := by
  have hcol : (inputs.headD []).length = ncols := by
    obtain ⟨r, rs, rfl⟩ := List.exists_cons_of_ne_nil hne
    exact hrect r (List.mem_cons_self r rs)
  have hm1 : ¬ mode ∉ (["auto", "insert", "replace"] : List String) := by
    rcases hmode with ⟨h, -⟩ | ⟨h, -⟩ | ⟨h, -⟩ <;> subst h <;> simp
  have hm2 : ¬(mode = "insert" ∧ ncols ≠ f.input_dim - 1) := by
    rintro ⟨hm, hn⟩
    subst hm
    rcases hmode with ⟨-, h⟩ | ⟨h', -⟩ | ⟨h', -⟩
    · exact hn h
    · exact absurd h' (by decide)
    · exact absurd h' (by decide)
  have hm3 : ¬(mode = "replace" ∧ ncols ≠ f.input_dim) := by
    rintro ⟨hm, hn⟩
    subst hm
    rcases hmode with ⟨h', -⟩ | ⟨-, h⟩ | ⟨h', -⟩
    · exact absurd h' (by decide)
    · exact hn h
    · exact absurd h' (by decide)
  have hm4 : ¬ ncols ∉ [f.input_dim, f.input_dim - 1] := by
    rcases hmode with ⟨-, h⟩ | ⟨-, h⟩ | ⟨-, h | h⟩ <;> simp [h]
  have hok : f.posterior inputs grid (PyVal.int c) mode =
      .ok ((posteriorPdfs f inputs grid c mode).map
        (List.map (nanToNum (F.fin 0)))) := by
    unfold Flow.posterior
    rw [hcol, if_neg hm1, if_neg hm2, if_neg hm3, if_neg hm4]
  have hres : (resolveMode f.input_dim ncols mode = "insert" ∧
      ncols = f.input_dim - 1) ∨
      (resolveMode f.input_dim ncols mode = "replace" ∧
      ncols = f.input_dim) := by
    rcases hmode with ⟨h, h2⟩ | ⟨h, h2⟩ | ⟨h, h2 | h2⟩
    · exact Or.inl ⟨by rw [h, resolveMode, if_neg (by decide)], h2⟩
    · exact Or.inr ⟨by rw [h, resolveMode, if_neg (by decide)], h2⟩
    · exact Or.inl ⟨by rw [h, resolveMode, if_pos rfl, if_pos h2], h2⟩
    · exact Or.inr ⟨by rw [h, resolveMode, if_pos rfl,
        if_neg (by omega), if_pos h2], h2⟩
  have hexpI : resolveMode f.input_dim ncols mode = "insert" →
      expandBatch inputs grid c (resolveMode f.input_dim ncols mode) =
        inputs.flatMap (fun r => grid.map (fun g =>
          pyTake c r ++ F.fin g :: pyDrop c r)) := by
    intro h
    rw [h, expandBatch, if_pos rfl]
    exact insertExpand_eq inputs grid c
  have hexpR : resolveMode f.input_dim ncols mode = "replace" →
      expandBatch inputs grid c (resolveMode f.input_dim ncols mode) =
        inputs.flatMap (fun r => grid.map (fun g =>
          pySet c (F.fin g) r)) := by
    intro h
    rw [h, expandBatch, if_neg (by decide), if_pos rfl]
    exact replaceExpand_eq inputs grid c
  have hexplen : (expandBatch inputs grid c
      (resolveMode f.input_dim ncols mode)).length =
      inputs.length * grid.length := by
    rcases hres with ⟨h, -⟩ | ⟨h, -⟩
    · rw [hexpI h]
      exact flatMap_gridmap_length inputs grid _
    · rw [hexpR h]
      exact flatMap_gridmap_length inputs grid _
  have hulen : (posteriorUnnorm f inputs grid c mode).length =
      inputs.length := by
    unfold posteriorUnnorm
    rw [List.length_map, reshapeRows_length]
  have hurow : ∀ row ∈ posteriorUnnorm f inputs grid c mode,
      row.length = grid.length := by
    intro row hrow
    unfold posteriorUnnorm at hrow
    obtain ⟨lrow, hl, rfl⟩ := List.mem_map.mp hrow
    rw [List.length_map]
    refine reshapeRows_row_length _ _ _ ?_ lrow hl
    rw [log_prob_length f hC]
    rw [show (inputs.headD []).length = ncols from hcol]
    exact hexplen
  refine ⟨hok, hexpI, hexpR, ?_, ?_, ?_, ?_, ?_⟩
  · intro h0 r
    exact ⟨by rw [pyTake, if_pos h0], by rw [pyDrop, if_pos h0],
      fun v => by rw [pySet, if_pos h0]⟩
  · rw [posteriorPdfs_rows, List.map_map]
    rfl
  · rw [posteriorPdfs_rows, List.length_map, List.length_map]
    exact hulen
  · intro row hrow
    rw [posteriorPdfs_rows] at hrow
    obtain ⟨prow, hp, rfl⟩ := List.mem_map.mp hrow
    obtain ⟨urow, hu, rfl⟩ := List.mem_map.mp hp
    rw [List.length_map, List.length_map]
    exact hurow urow hu
  · intro urow hu hT
    obtain ⟨qs, rfl⟩ := posteriorUnnorm_row_fin f inputs grid c mode urow hu
    have hT' : trapzQ grid qs ≠ 0 := by
      intro h
      exact hT (by rw [trapzF_map_fin, h])
    rw [trapzF_map_fin, map_div_fin qs _ hT', map_nanToNum_fin,
      trapzF_map_fin, trapzQ_div, div_self hT']

/-- C2 counterexample: a valid insert-mode posterior call whose returned row
has trapezoidal integral `0`, not `1`: the flow's density is zero at every
grid point, so the normalizing integral is `0`, the division yields NaN,
and the final `nan_to_num` returns an all-zero row. -/
theorem claim_C2_counterexample :
    flowC.posterior [[F.fin 0]] [0, 1] (PyVal.int 0) "insert" =
      .ok [[F.fin 0, F.fin 0]] ∧
    trapzF [0, 1] [F.fin 0, F.fin 0] = F.fin 0 ∧
    F.fin 0 ≠ F.fin 1 := by
  refine ⟨?_, ?_, by simp⟩
  · simp only [Flow.posterior, posteriorPdfs, posteriorUnnorm, resolveMode,
      expandBatch, insertExpand, Flow.log_prob, flowC, flowA, nanPrior,
      idApply, reshapeRows, hstack3, pyTake, pyDrop]
    norm_num [trapzF, nanToNum, F.add, F.exp, F.mul, F.div, expQ]
    exact fun h => absurd h (by decide)
  · norm_num [trapzF, F.add, F.mul, F.div]

/-- C2 witness: the theorem applied to `flowA` on a one-column batch; the
unnormalized row evaluates to `[1, 1]` with trapezoidal integral `1 ≠ 0`
over the grid `[0, 1]`, so its returned row integrates to 1. -/
theorem claim_C2_witness :
    flowA.posterior [[F.fin 0]] [0, 1] (PyVal.int 0) "insert" =
      .ok ((posteriorPdfs flowA [[F.fin 0]] [0, 1] 0 "insert").map
        (List.map (nanToNum (F.fin 0)))) ∧
    trapzF [0, 1] (([F.fin 1, F.fin 1].map (fun p =>
        p.div (trapzF [0, 1] [F.fin 1, F.fin 1]))).map
      (nanToNum (F.fin 0))) = F.fin 1 := by
  have hu : posteriorUnnorm flowA [[F.fin 0]] [0, 1] 0 "insert" =
      [[F.fin 1, F.fin 1]] := by
    simp only [posteriorUnnorm, resolveMode, expandBatch, insertExpand,
      Flow.log_prob, flowA, zeroPrior, idApply, reshapeRows, hstack3,
      pyTake, pyDrop]
    norm_num [nanToNum, F.add, F.exp, expQ]
  have h := claim_C2_posterior_normalization flowA [[F.fin 0]] [0, 1] 0
    "insert" 1 (by simp [flowA]) (by simp) (by simp)
    ⟨fun p x => by simp [flowA, idApply],
     fun x => by simp [flowA, zeroPrior]⟩
    (Or.inl ⟨rfl, by simp [flowA]⟩)
  refine ⟨h.1, h.2.2.2.2.2.2.2 [F.fin 1, F.fin 1] ?_ ?_⟩
  · rw [hu]
    exact List.mem_singleton.mpr rfl
  · norm_num [trapzF, F.add, F.mul, F.div]

/-- C6 counterexample: the claim says every non-finite entry of the
normalized density array is replaced with `0`.  For `flowA` on the grid
`[0, 0]` (two equal grid points, so the trapezoidal integral is `0`), the
normalized array contains `+inf` (`1/0`), and the returned entry is the
largest finite float — a nonzero value — not `0`:
`np.nan_to_num(pdfs, nan=0.0)` leaves `posinf` at its default. -/
theorem claim_C6_counterexample :
    posteriorPdfs flowA [[F.fin 0, F.fin 0]] [0, 0] 0 "replace" =
      [[F.pinf, F.pinf]] ∧
    F.pinf.isFinite = false ∧
    flowA.posterior [[F.fin 0, F.fin 0]] [0, 0] (PyVal.int 0) "replace" =
      .ok [[F.fin maxFloat, F.fin maxFloat]] ∧
    F.fin maxFloat ≠ F.fin 0 := by
  have hexp : expandBatch [[F.fin 0, F.fin 0]] [0, 0] 0 "replace" =
      [[F.fin 0, F.fin 0], [F.fin 0, F.fin 0]] := by
    rw [expandBatch, if_neg (by decide), if_pos rfl]
    rfl
  have hlp : flowA.log_prob [[F.fin 0, F.fin 0], [F.fin 0, F.fin 0]] =
      [F.fin 0, F.fin 0] := by
    simp [Flow.log_prob, flowA, zeroPrior, idApply, nanToNum, F.add]
  have hun : posteriorUnnorm flowA [[F.fin 0, F.fin 0]] [0, 0] 0 "replace" =
      [[F.fin 1, F.fin 1]] := by
    unfold posteriorUnnorm
    rw [show resolveMode flowA.input_dim
        ([[F.fin 0, F.fin 0]].headD []).length "replace" = "replace" from by
      rw [resolveMode, if_neg (by decide)]]
    rw [hexp, hlp]
    norm_num [reshapeRows, F.exp, expQ]
  have ht : trapzF [0, 0] [F.fin 1, F.fin 1] = F.fin 0 := by
    norm_num [trapzF, F.mul, F.add, F.div]
  have hp : posteriorPdfs flowA [[F.fin 0, F.fin 0]] [0, 0] 0 "replace" =
      [[F.pinf, F.pinf]] := by
    rw [posteriorPdfs_rows, hun]
    norm_num [ht, F.div]
  refine ⟨hp, rfl, ?_, by norm_num [maxFloat]⟩
  have hok : flowA.posterior [[F.fin 0, F.fin 0]] [0, 0] (PyVal.int 0)
      "replace" = .ok ((posteriorPdfs flowA [[F.fin 0, F.fin 0]] [0, 0] 0
        "replace").map (List.map (nanToNum (F.fin 0)))) := by
    unfold Flow.posterior
    rw [if_neg (by decide), if_neg (by simp), if_neg (by simp [flowA]),
      if_neg (by simp [flowA])]
  rw [hok, hp]
  rfl

/-- C6 (amended): the array `Flow.posterior` returns is
`nan_to_num(pdfs, nan=0.0)` of the normalized density array: NaN entries
are replaced with `0`, `+inf` entries with the largest finite float, `-inf`
entries with the lowest finite float, finite entries are unchanged — and
every returned entry is finite. -/
theorem claim_C6_posterior_finite {P I : Type} (f : Flow P I)
    (inputs : List (List F)) (grid : List ℚ) (c : ℤ) (mode : String)
    (out : List (List F))
    (hok : f.posterior inputs grid (PyVal.int c) mode = .ok out) :
    out = (posteriorPdfs f inputs grid c mode).map
      (List.map (nanToNum (F.fin 0))) ∧
    nanToNum (F.fin 0) F.nan = F.fin 0 ∧
    nanToNum (F.fin 0) F.pinf = F.fin maxFloat ∧
    nanToNum (F.fin 0) F.ninf = F.fin (-maxFloat) ∧
    (∀ q : ℚ, nanToNum (F.fin 0) (F.fin q) = F.fin q) ∧
    ∀ row ∈ out, ∀ e ∈ row, e.isFinite = true := by
  unfold Flow.posterior at hok
  split_ifs at hok <;>
    first
      | exact absurd hok (fun h => Except.noConfusion h)
      | skip
  dsimp only at hok
  injection hok with h
  subst h
  refine ⟨rfl, rfl, rfl, rfl, fun _ => rfl, ?_⟩
  intro row hrow e he
  obtain ⟨prow, -, rfl⟩ := List.mem_map.mp hrow
  obtain ⟨a, -, rfl⟩ := List.mem_map.mp he
  cases a <;> rfl

/-- C6 witness: the finiteness theorem applied at a concrete successful
call of `flowA`, evaluated down to one concrete returned entry. -/
theorem claim_C6_witness : (F.fin 1).isFinite = true := by
  have hok : flowA.posterior [[F.fin 0]] [0, 1] (PyVal.int 0) "insert" =
      .ok ((posteriorPdfs flowA [[F.fin 0]] [0, 1] 0 "insert").map
        (List.map (nanToNum (F.fin 0)))) := by
    unfold Flow.posterior
    rw [if_neg (by decide), if_neg (by simp [flowA]),
      if_neg (by simp), if_neg (by simp [flowA])]
  have hu : posteriorUnnorm flowA [[F.fin 0]] [0, 1] 0 "insert" =
      [[F.fin 1, F.fin 1]] := by
    simp only [posteriorUnnorm, resolveMode, expandBatch, insertExpand,
      Flow.log_prob, flowA, zeroPrior, idApply, reshapeRows, hstack3,
      pyTake, pyDrop]
    norm_num [nanToNum, F.add, F.exp, expQ]
  have ht1 : trapzF [0, 1] [F.fin 1, F.fin 1] = F.fin 1 := by
    norm_num [trapzF, F.mul, F.add, F.div]
  have hout : (posteriorPdfs flowA [[F.fin 0]] [0, 1] 0 "insert").map
      (List.map (nanToNum (F.fin 0))) = [[F.fin 1, F.fin 1]] := by
    rw [posteriorPdfs_rows, hu]
    norm_num [ht1, F.div, nanToNum]
  refine (claim_C6_posterior_finite flowA [[F.fin 0]] [0, 1] 0 "insert"
    _ hok).2.2.2.2.2 [F.fin 1, F.fin 1] ?_ (F.fin 1) ?_
  · rw [hout]
    exact List.mem_singleton.mpr rfl
  · simp

/-- C4: `Flow.posterior` fails exactly when the mode is unrecognized; or
`mode=insert` and the column count differs from `input_dim-1`; or
`mode=replace` and the column count differs from `input_dim`; or the column
count matches neither `input_dim` nor `input_dim-1`; or `column` is not an
integer.  The second conjunct expresses "before any computation": whenever
the call fails, the result is the same for any flow with the same
`input_dim` — the error depends on no parameters, bijector or prior. -/
theorem claim_C4_posterior_validation {P I : Type} (f : Flow P I)
    (inputs : List (List F)) (grid : List ℚ) (column : PyVal) (mode : String)
    (ncols : ℕ) (hne : inputs ≠ []) (hrect : ∀ r ∈ inputs, r.length = ncols) :
    (isErr (f.posterior inputs grid column mode) = true ↔
      (mode ∉ ["auto", "insert", "replace"] ∨
       (mode = "insert" ∧ ncols ≠ f.input_dim - 1) ∨
       (mode = "replace" ∧ ncols ≠ f.input_dim) ∨
       (ncols ≠ f.input_dim ∧ ncols ≠ f.input_dim - 1) ∨
       column = PyVal.nonInt)) ∧
    (∀ g : Flow P I, g.input_dim = f.input_dim →
      isErr (f.posterior inputs grid column mode) = true →
      f.posterior inputs grid column mode =
        g.posterior inputs grid column mode) := by
  have hcol : (inputs.headD []).length = ncols := by
    obtain ⟨r, rs, rfl⟩ := List.exists_cons_of_ne_nil hne
    exact hrect r (List.mem_cons_self r rs)
  unfold Flow.posterior
  rw [hcol]
  constructor
  · constructor
    · intro hE
      by_cases h1 : mode ∉ ["auto", "insert", "replace"]
      · exact Or.inl h1
      by_cases h2 : mode = "insert" ∧ ncols ≠ f.input_dim - 1
      · exact Or.inr (Or.inl h2)
      by_cases h3 : mode = "replace" ∧ ncols ≠ f.input_dim
      · exact Or.inr (Or.inr (Or.inl h3))
      by_cases h4 : ncols ∉ [f.input_dim, f.input_dim - 1]
      · exact Or.inr (Or.inr (Or.inr (Or.inl (by simpa using h4))))
      cases column with
      | nonInt => exact Or.inr (Or.inr (Or.inr (Or.inr rfl)))
      | int c =>
          rw [if_neg h1, if_neg h2, if_neg h3, if_neg h4] at hE
          simp [isErr] at hE
    · intro hR
      by_cases h1 : mode ∉ ["auto", "insert", "replace"]
      · rw [if_pos h1]; rfl
      by_cases h2 : mode = "insert" ∧ ncols ≠ f.input_dim - 1
      · rw [if_neg h1, if_pos h2]; rfl
      by_cases h3 : mode = "replace" ∧ ncols ≠ f.input_dim
      · rw [if_neg h1, if_neg h2, if_pos h3]; rfl
      by_cases h4 : ncols ∉ [f.input_dim, f.input_dim - 1]
      · rw [if_neg h1, if_neg h2, if_neg h3, if_pos h4]; rfl
      cases column with
      | nonInt => rw [if_neg h1, if_neg h2, if_neg h3, if_neg h4]; rfl
      | int c =>
          exfalso
          rcases hR with h | h | h | h | h
          · exact h1 h
          · exact h2 h
          · exact h3 h
          · exact h4 (by simpa using h)
          · exact PyVal.noConfusion h
  · intro g hg hE
    rw [hg]
    by_cases h1 : mode ∉ ["auto", "insert", "replace"]
    · simp only [if_pos h1]
    by_cases h2 : mode = "insert" ∧ ncols ≠ f.input_dim - 1
    · simp only [if_neg h1, if_pos h2]
    by_cases h3 : mode = "replace" ∧ ncols ≠ f.input_dim
    · simp only [if_neg h1, if_neg h2, if_pos h3]
    by_cases h4 : ncols ∉ [f.input_dim, f.input_dim - 1]
    · simp only [if_neg h1, if_neg h2, if_neg h3, if_pos h4]
    rw [if_neg h1, if_neg h2, if_neg h3, if_neg h4] at hE
    cases column with
    | nonInt => simp only [if_neg h1, if_neg h2, if_neg h3, if_neg h4]
    | int c => simp [isErr] at hE

/-- C4 witness: a call with an unrecognized mode fails, via the theorem. -/
theorem claim_C4_witness :
    isErr (flowA.posterior [[F.fin 0]] [0, 1] (PyVal.int 0) "bogus") = true :=
  ((claim_C4_posterior_validation flowA [[F.fin 0]] [0, 1] (PyVal.int 0)
      "bogus" 1 (by simp) (by simp)).1).mpr (Or.inl (by simp))

/-- C7: with an integer column, calling `posterior` with `mode="auto"` on an
`input_dim`-column batch returns output identical to `mode="replace"`, and
on an `input_dim-1`-column batch output identical to `mode="insert"`. -/
theorem claim_C7_auto_mode_equivalence {P I : Type} (f : Flow P I)
    (inputs : List (List F)) (grid : List ℚ) (c : ℤ) (ncols : ℕ)
    (hd : 0 < f.input_dim) (hne : inputs ≠ [])
    (hrect : ∀ r ∈ inputs, r.length = ncols) :
    (ncols = f.input_dim →
      f.posterior inputs grid (PyVal.int c) "auto" =
        f.posterior inputs grid (PyVal.int c) "replace") ∧
    (ncols = f.input_dim - 1 →
      f.posterior inputs grid (PyVal.int c) "auto" =
        f.posterior inputs grid (PyVal.int c) "insert") := by
  have hcol : (inputs.headD []).length = ncols := by
    obtain ⟨r, rs, rfl⟩ := List.exists_cons_of_ne_nil hne
    exact hrect r (List.mem_cons_self r rs)
  constructor
  · intro h
    have hq : ¬ f.input_dim = f.input_dim - 1 := by omega
    have hr1 : resolveMode f.input_dim f.input_dim "auto" = "replace" := by
      rw [resolveMode, if_pos rfl, if_neg hq, if_pos rfl]
    have hr2 : resolveMode f.input_dim f.input_dim "replace" = "replace" := by
      rw [resolveMode, if_neg (by decide)]
    unfold Flow.posterior posteriorPdfs posteriorUnnorm
    rw [hcol, h, hr1, hr2]
    simp [hq]
  · intro h
    have hr1 : resolveMode f.input_dim (f.input_dim - 1) "auto" = "insert" := by
      rw [resolveMode, if_pos rfl, if_pos rfl]
    have hr2 : resolveMode f.input_dim (f.input_dim - 1) "insert" = "insert" := by
      rw [resolveMode, if_neg (by decide)]
    unfold Flow.posterior posteriorPdfs posteriorUnnorm
    rw [hcol, h, hr1, hr2]
    simp [show f.input_dim - 1 ≠ f.input_dim from by omega]

/-- C7 witness: the theorem applied to `flowA` (`input_dim = 2`) on a
two-column batch (replace case) and a one-column batch (insert case). -/
theorem claim_C7_witness :
    flowA.posterior [[F.fin 0, F.fin 0]] [0, 1] (PyVal.int 0) "auto" =
      flowA.posterior [[F.fin 0, F.fin 0]] [0, 1] (PyVal.int 0) "replace" ∧
    flowA.posterior [[F.fin 0]] [0, 1] (PyVal.int 0) "auto" =
      flowA.posterior [[F.fin 0]] [0, 1] (PyVal.int 0) "insert" :=
  ⟨(claim_C7_auto_mode_equivalence flowA [[F.fin 0, F.fin 0]] [0, 1] 0 2
      (by simp [flowA]) (by simp) (by simp)).1 rfl,
   (claim_C7_auto_mode_equivalence flowA [[F.fin 0]] [0, 1] 0 1
      (by simp [flowA]) (by simp) (by simp)).2 rfl⟩

/-- C10 (implicit): `posterior` never range-checks `column`.  In insert mode
on a `input_dim-1`-column batch, any integer `column ≥ input_dim-1` raises
no error and gives exactly the result of `column = input_dim-1`: the slice
bounds clamp, so the grid value lands as the last coordinate
(`row ++ [g]`). -/
theorem claim_C10_insert_column_clamps {P I : Type} (f : Flow P I)
    (inputs : List (List F)) (grid : List ℚ) (c : ℤ)
    (hd : 0 < f.input_dim) (hne : inputs ≠ [])
    (hrect : ∀ r ∈ inputs, r.length = f.input_dim - 1)
    (hc : (f.input_dim : ℤ) - 1 ≤ c) :
    isErr (f.posterior inputs grid (PyVal.int c) "insert") = false ∧
    f.posterior inputs grid (PyVal.int c) "insert" =
      f.posterior inputs grid (PyVal.int ((f.input_dim : ℤ) - 1)) "insert" ∧
    expandBatch inputs grid c "insert" =
      inputs.flatMap (fun r => grid.map (fun g => r ++ [F.fin g])) := by
  have hcol : (inputs.headD []).length = f.input_dim - 1 := by
    obtain ⟨r, rs, rfl⟩ := List.exists_cons_of_ne_nil hne
    exact hrect r (List.mem_cons_self r rs)
  have hc0 : (0 : ℤ) ≤ c := by omega
  have hd0 : (0 : ℤ) ≤ (f.input_dim : ℤ) - 1 := by omega
  have hclamp : ∀ c' : ℤ, 0 ≤ c' → (f.input_dim : ℤ) - 1 ≤ c' →
      ∀ r ∈ inputs, pyTake c' r = r ∧ pyDrop c' r = [] := by
    intro c' h0 h1 r hr
    have hlen : r.length ≤ c'.toNat := by
      rw [hrect r hr]
      omega
    rw [pyTake, pyDrop, if_pos h0, if_pos h0]
    exact ⟨List.take_of_length_le hlen, List.drop_eq_nil_of_le hlen⟩
  have hexp : ∀ c' : ℤ, 0 ≤ c' → (f.input_dim : ℤ) - 1 ≤ c' →
      expandBatch inputs grid c' "insert" =
        inputs.flatMap (fun r => grid.map (fun g => r ++ [F.fin g])) := by
    intro c' h0 h1
    rw [expandBatch, if_pos rfl, insertExpand_eq]
    refine List.flatMap_congr (fun r hr => List.map_congr_left (fun g _ => ?_))
    rw [(hclamp c' h0 h1 r hr).1, (hclamp c' h0 h1 r hr).2]
  have hres : resolveMode f.input_dim (inputs.headD []).length "insert" =
      "insert" := by
    rw [resolveMode, if_neg (by decide)]
  have hmain : f.posterior inputs grid (PyVal.int c) "insert" =
      f.posterior inputs grid (PyVal.int ((f.input_dim : ℤ) - 1)) "insert" := by
    unfold Flow.posterior posteriorPdfs posteriorUnnorm
    dsimp only
    rw [hres, hexp c hc0 hc, hexp ((f.input_dim : ℤ) - 1) hd0 le_rfl]
  refine ⟨?_, hmain, hexp c hc0 hc⟩
  unfold Flow.posterior
  rw [hcol]
  simp [isErr]

/-- C10 witness: for `flowA` (`input_dim = 2`), insert with `column = 5` on
a one-column batch equals insert with `column = 1`, error-free. -/
theorem claim_C10_witness :
    isErr (flowA.posterior [[F.fin 0]] [0, 1] (PyVal.int 5) "insert") = false ∧
    flowA.posterior [[F.fin 0]] [0, 1] (PyVal.int 5) "insert" =
      flowA.posterior [[F.fin 0]] [0, 1] (PyVal.int 1) "insert" := by
  have h := claim_C10_insert_column_clamps flowA [[F.fin 0]] [0, 1] 5
    (by simp [flowA]) (by simp) (by simp [flowA]) (by simp [flowA])
  exact ⟨h.1, h.2.1⟩

/-- C8: saving a Flow and restoring it from the saved bundle preserves
`input_dim`, `info` and `params` exactly, and `log_prob` agrees on every
batch.  The hypotheses say the Flow's closures were derived from its own
bijector at the deterministic construction seed (true of every
constructor-built Flow) and its prior is the `Normal` family member for its
`input_dim`. -/
theorem claim_C8_save_restore {P I : Type} (f : Flow P I)
    (rsc : ℕ → BijT P) (normal : ℕ → Prior) (info0 : I)
    (hfwd : f.forwardFun = (f.bijector 0 f.input_dim).2.1)
    (hinv : f.inverseFun = (f.bijector 0 f.input_dim).2.2)
    (hprior : f.prior = normal f.input_dim) :
    ∃ g : Flow P I,
      flowInit rsc normal none none (some f.save) info0 = .ok g ∧
      g.input_dim = f.input_dim ∧ g.info = f.info ∧ g.params = f.params ∧
      ∀ batch, g.log_prob batch = f.log_prob batch := by
  refine ⟨_, rfl, rfl, rfl, rfl, fun batch => ?_⟩
  simp only [Flow.log_prob, Flow.save, ← hinv, ← hprior]

/-- C8 witness: the round trip at `flowA` with the identity bijector family
and zero prior. -/
theorem claim_C8_witness :
    ∃ g : Flow Unit Unit,
      flowInit (fun _ => idBij) (fun _ => zeroPrior) none none
        (some flowA.save) () = .ok g ∧
      g.input_dim = flowA.input_dim ∧ g.info = flowA.info ∧
      g.params = flowA.params ∧
      ∀ batch, g.log_prob batch = flowA.log_prob batch :=
  claim_C8_save_restore flowA (fun _ => idBij) (fun _ => zeroPrior) ()
    rfl rfl rfl

/-- The epoch loop unrolled: running `k` more epochs from the state reached
after `m` epochs lands in the state after `m + k` epochs and appends one
full-input loss per epoch, each evaluated at the parameters as they stand
after that epoch's batches. -/
theorem trainEpochs_spec {P I S G K : Type} (f : Flow P I)
    (opt : Optimizer P S G) (gl : P → List (List F) → G) (rng : Rng K)
    (inputs : List (List F)) (bs : ℕ) (seed : ℤ) :
    ∀ (k m : ℕ) (ls : List F),
      trainEpochs f opt gl rng inputs bs k
        (stateAfter f opt gl rng inputs bs seed m) ls =
      (stateAfter f opt gl rng inputs bs seed (m + k),
       ls ++ (List.range k).map (fun e =>
         lossFn f (opt.getParams
           (stateAfter f opt gl rng inputs bs seed (m + e + 1)).1) inputs)) := by
  intro k
  induction k with
  | zero => intro m ls; simp [trainEpochs]
  | succ k ih =>
      intro m ls
      rw [trainEpochs]
      have hstep : epochStep opt gl rng inputs bs
          (stateAfter f opt gl rng inputs bs seed m) =
          stateAfter f opt gl rng inputs bs seed (m + 1) := rfl
      rw [hstep, ih (m + 1)]
      simp only [Prod.mk.injEq]
      constructor
      · exact congrArg _ (by omega)
      · rw [List.append_assoc, List.singleton_append,
          List.range_succ_eq_map, List.map_cons, List.map_map]
        refine congrArg _ (congrArg₂ _ (by simp) ?_)
        refine List.map_congr_left fun e _ => ?_
        simp only [Function.comp_apply, Nat.succ_eq_add_one]
        rw [show m + 1 + e + 1 = m + (e + 1) + 1 from by omega]

/-- C3: for every `Flow.train` call (with a positive batch size, as slicing
with step `batch_size = 0` raises in Python): the optimizer state is
initialized from the Flow's current params; the returned sequence has length
`epochs + 1`; its first element is the pre-training loss on the full inputs;
element `e + 1` is the loss on the full, unpermuted inputs at the parameters
as they stand after all batches of epoch `e`; and the returned Flow's params
are the parameters extracted from the final optimizer state. -/
theorem claim_C3_train_loop {P I S G K : Type} (f : Flow P I)
    (opt : Optimizer P S G) (gl : P → List (List F) → G) (rng : Rng K)
    (inputs : List (List F)) (bs : ℕ) (epochs : ℕ) (seed : ℤ)
    (hbs : 0 < bs) :
    stateAfter f opt gl rng inputs bs seed 0 =
      (opt.init f.params, 0, rng.key seed) ∧
    (f.train opt gl rng inputs bs epochs seed).2 =
      lossFn f f.params inputs ::
        (List.range epochs).map (fun e =>
          lossFn f (opt.getParams
            (stateAfter f opt gl rng inputs bs seed (e + 1)).1) inputs) ∧
    (f.train opt gl rng inputs bs epochs seed).2.length = epochs + 1 ∧
    (f.train opt gl rng inputs bs epochs seed).1 =
      { f with params := opt.getParams (stateAfter f opt gl rng inputs bs seed epochs).1 } := by
  have h := trainEpochs_spec f opt gl rng inputs bs seed epochs 0
    [lossFn f f.params inputs]
  have h0 : (opt.init f.params, (0 : ℕ), rng.key seed) =
      stateAfter f opt gl rng inputs bs seed 0 := rfl
  refine ⟨rfl, ?_, ?_, ?_⟩ <;>
  · unfold Flow.train
    rw [h0, h]
    simp [Nat.add_comm]

/-- C3 witness: the training theorem at a concrete flow, trivial optimizer
and PRNG, one epoch, batch size one. -/
theorem claim_C3_witness :
    (flowA.train (Optimizer.mk (fun _ => ()) (fun _ _ _ => ()) (fun _ => ()))
        (fun _ _ => ())
        (Rng.mk (fun _ => ()) (fun _ => ((), ())) (fun _ x => x))
        [[F.fin 0, F.fin 0]] 1 1 0).2.length = 1 + 1 :=
  (claim_C3_train_loop flowA
      (Optimizer.mk (fun _ => ()) (fun _ _ _ => ()) (fun _ => ()))
      (fun _ _ => ())
      (Rng.mk (fun _ => ()) (fun _ => ((), ())) (fun _ x => x))
      [[F.fin 0, F.fin 0]] 1 1 0 (by decide)).2.2.1

/-- C9: in the state-passing rendering of the `Flow` methods, `forward`,
`inverse`, `sample`, `log_prob`, `posterior` and `save` return the object
state unchanged, and `train` changes the `params` field only (to the
parameters extracted from the final optimizer state), leaving `input_dim`,
`info`, the bijector, both closures and the prior untouched. -/
theorem claim_C9_frame {P I S G K : Type} (f : Flow P I)
    (x : List (List F)) (n : ℕ) (sd : Option ℤ) (grid : List ℚ)
    (col : PyVal) (mode : String) (opt : Optimizer P S G)
    (gl : P → List (List F) → G) (rng : Rng K) (inputs : List (List F))
    (bs epochs : ℕ) (seed : ℤ) :
    (f.forwardS x).2 = f ∧
    (f.inverseS x).2 = f ∧
    (f.sampleS n sd).2 = f ∧
    (f.log_probS x).2 = f ∧
    (f.posteriorS x grid col mode).2 = f ∧
    f.saveS.2 = f ∧
    (f.trainS opt gl rng inputs bs epochs seed).2 =
      { f with params := (f.trainS opt gl rng inputs bs epochs seed).2.params } ∧
    (f.trainS opt gl rng inputs bs epochs seed).2.params =
      opt.getParams (trainEpochs f opt gl rng inputs bs epochs
        (opt.init f.params, 0, rng.key seed) [lossFn f f.params inputs]).1.1 :=
  ⟨rfl, rfl, rfl, rfl, rfl, rfl, rfl, rfl⟩

/-- C9 witness: the frame theorem instantiated at a concrete flow, batch and
trivial optimizer. -/
theorem claim_C9_witness :
    (flowA.log_probS [[F.fin 0, F.fin 0]]).2 = flowA :=
  (claim_C9_frame flowA [[F.fin 0, F.fin 0]] 1 none [0, 1] (.int 0) "auto"
      (Optimizer.mk (fun _ => ()) (fun _ _ _ => ()) (fun _ => ()))
      (fun _ _ => ()) (Rng.mk (fun _ => ()) (fun _ => ((), ()))
        (fun _ x => x)) [[F.fin 0, F.fin 0]] 1 1 0).2.2.2.1

end PZFlow
